import Mathlib

/-!
Verification of the "hackersmind" archive-cracking core
(`src/7-hackersmind/iteration1.py`, `src/7-hackersmind/iteration2.py`)
against its natural-language specification.

Strings are modelled as `List Char`; an encrypted archive is modelled by
whether it opens as a valid container (`zipfile.ZipFile` raising
`BadZipFile` or not) together with the set of passwords accepted by
`extractall` (a wrong password raises `RuntimeError`/`BadZipFile`, which
the source catches and treats as "try the next candidate").
-/

namespace Hackersmind

/-- A password-protected archive as observed by the cracking loops:
`opens` is whether `zipfile.ZipFile(path)` succeeds (a malformed container
raises `BadZipFile` there), and `accepts pwd` is whether
`extractall(pwd=...)` completes without raising
`RuntimeError`/`BadZipFile`. -/
structure Zip where
  opens : Bool
  accepts : List Char → Bool

/-- The candidate loop shared by `dictionary_attack` (iteration1) and
`try_passwords` (iteration2): try each password in order; the first one
accepted stops the loop.  Returns the found password (if any), the number
of attempts made (the source's `self.attempts` / `enumerate` counter `i`),
and the list of candidates actually tried, in order. -/
def tryLoop (accepts : List Char → Bool) : List (List Char) → Option (List Char) × Nat × List (List Char)
  | [] => (none, 0, [])
  | p :: rest =>
    if accepts p then (some p, 1, [p])
    else
      let r := tryLoop accepts rest
      (r.1, r.2.1 + 1, p :: r.2.2)

/-- `MultiLayerZipCracker.try_passwords` (iteration2, lines 221-251):
open the archive (any failure there is caught by the outer handler and
returns `(None, None)` before any candidate is tried), then run the
candidate loop. -/
def try_passwords (z : Zip) (candidates : List (List Char)) : Option (List Char) × Nat × List (List Char) :=
  if z.opens then tryLoop z.accepts candidates else (none, 0, [])

/-- `BasicPasswordCracker.common_passwords` (iteration1, lines 23-28). -/
def common_passwords : List (List Char) :=
  ["password".data, "123456".data, "password123".data, "admin".data, "letmein".data,
   "welcome".data, "monkey".data, "1234567890".data, "qwerty".data, "abc123".data,
   "Password1".data, "welcome123".data, "admin123".data, "root".data, "toor".data,
   "guest".data, "test".data, "demo".data, "user".data, "login".data]

/-- `BasicPasswordCracker.dictionary_attack` (iteration1, lines 32-65).
`wordlist = wordlist or self.common_passwords`: `None` and the empty list
are both falsy in Python, so either is replaced by the default list.
Opening the archive happens inside the outer `try`; `BadZipFile` there
returns `None` with no attempts made.  Returns (found password, attempts). -/
def dictionary_attack (z : Zip) (wordlist : Option (List (List Char))) : Option (List Char) × Nat :=
  let wl := match wordlist with
    | none => common_passwords
    | some l => if l.isEmpty then common_passwords else l
  if z.opens then
    let r := tryLoop z.accepts wl
    (r.1, r.2.1)
  else (none, 0)

/-- The archive of the spec's C1 example: real password `"correct"`. -/
def demoArchive : Zip := ⟨true, fun p => decide (p = "correct".data)⟩

/-- The candidate list of the spec's C1 example. -/
def c1Candidates : List (List Char) :=
  ["wrong1".data, "wrong2".data, "correct".data, "wrong3".data]

/-- An archive that opens fine but accepts no password at all. -/
def noMatchArchive : Zip := ⟨true, fun _ => false⟩

/-- A malformed container: `zipfile.ZipFile` raises `BadZipFile`, so it
never opens; the `accepts` field is irrelevant (extraction is never
reached). -/
def badArchive : Zip := ⟨false, fun _ => true⟩

/-- `string.digits` (iteration1 line 84): the decimal digit characters in
ascending order. -/
def pyDigits : List Char := "0123456789".data

/-- `itertools.product(string.digits, repeat=n)` joined to strings
(iteration1 lines 84-85): all length-`n` digit strings, first coordinate
outermost, i.e. ascending lexicographic order. -/
def digitProduct : Nat → List (List Char)
  | 0 => [[]]
  | n + 1 => pyDigits.flatMap (fun d => (digitProduct n).map (fun s => d :: s))

/-- The full candidate sequence tried by
`BasicPasswordCracker.brute_force_numeric` (iteration1 lines 81-85):
`for length in range(1, max_length + 1)` then all digit combinations of
that length, flattened in trial order. -/
def bruteForceNumericCandidates (maxLength : Nat) : List (List Char) :=
  (List.range' 1 maxLength).flatMap digitProduct

/-- `BasicPasswordCracker.brute_force_numeric` (iteration1, lines 67-104):
same loop structure as `dictionary_attack`, over the numeric candidate
sequence.  Returns (found password, attempts). -/
def brute_force_numeric (z : Zip) (maxLength : Nat) : Option (List Char) × Nat :=
  if z.opens then
    let r := tryLoop z.accepts (bruteForceNumericCandidates maxLength)
    (r.1, r.2.1)
  else (none, 0)

/-- The enumeration order demanded by the spec: strictly ascending length,
and ascending lexicographic order between strings of equal length. -/
def lenLexOrder (s t : List Char) : Prop :=
  s.length < t.length ∨ (s.length = t.length ∧ List.Lex (· < ·) s t)

/-- The exact trial sequence the spec demands for `max_length = 2`:
"0".."9" then "00".."99", 110 candidates. -/
def c2Expected : List (List Char) :=
  ["0".data, "1".data, "2".data, "3".data, "4".data, "5".data, "6".data, 
   "7".data, "8".data, "9".data, "00".data, "01".data, "02".data, 
   "03".data, "04".data, "05".data, "06".data, "07".data, "08".data, 
   "09".data, "10".data, "11".data, "12".data, "13".data, "14".data, 
   "15".data, "16".data, "17".data, "18".data, "19".data, "20".data, 
   "21".data, "22".data, "23".data, "24".data, "25".data, "26".data, 
   "27".data, "28".data, "29".data, "30".data, "31".data, "32".data, 
   "33".data, "34".data, "35".data, "36".data, "37".data, "38".data, 
   "39".data, "40".data, "41".data, "42".data, "43".data, "44".data, 
   "45".data, "46".data, "47".data, "48".data, "49".data, "50".data, 
   "51".data, "52".data, "53".data, "54".data, "55".data, "56".data, 
   "57".data, "58".data, "59".data, "60".data, "61".data, "62".data, 
   "63".data, "64".data, "65".data, "66".data, "67".data, "68".data, 
   "69".data, "70".data, "71".data, "72".data, "73".data, "74".data, 
   "75".data, "76".data, "77".data, "78".data, "79".data, "80".data, 
   "81".data, "82".data, "83".data, "84".data, "85".data, "86".data, 
   "87".data, "88".data, "89".data, "90".data, "91".data, "92".data, 
   "93".data, "94".data, "95".data, "96".data, "97".data, "98".data, 
   "99".data]

/-- `str.upper` on one ASCII character (Python uppercases `a`-`z`). -/
def pyUpperChar (c : Char) : Char :=
  if 'a' ≤ c ∧ c ≤ 'z' then Char.ofNat (c.toNat - 32) else c

/-- `str.lower` on one ASCII character (Python lowercases `A`-`Z`). -/
def pyLowerChar (c : Char) : Char :=
  if 'A' ≤ c ∧ c ≤ 'Z' then Char.ofNat (c.toNat + 32) else c

/-- Python `str.upper` (ASCII range, characterwise). -/
def pyUpper (s : List Char) : List Char := s.map pyUpperChar

/-- Python `str.lower` (ASCII range, characterwise). -/
def pyLower (s : List Char) : List Char := s.map pyLowerChar

/-- Python `str.capitalize`: first character uppercased, the rest
lowercased. -/
def pyCapitalize : List Char → List Char
  | [] => []
  | c :: rest => pyUpperChar c :: pyLower rest

/-- Python `str.replace(a, b)` for single-character `a`, `b`: replace
every occurrence of `a` by `b`. -/
def pyReplace (a b : Char) (s : List Char) : List Char :=
  s.map (fun c => if c = a then b else c)

/-- The candidate list built by `BasicPasswordCracker.pattern_based_attack`
(iteration1, lines 110-130): the base word, then — when variations are
enabled — the listed transformations in source order. -/
def patterns (w : List Char) (variations : Bool) : List (List Char) :=
  [w] ++ (if variations then
    [pyUpper w, pyLower w, pyCapitalize w,
     w ++ "1".data, w ++ "123".data, w ++ "2023".data, w ++ "2024".data,
     "1".data ++ w, w ++ "!".data, w ++ "@".data,
     pyReplace 'a' '@' w, pyReplace 'o' '0' w, pyReplace 'e' '3' w,
     pyReplace 'i' '1' w, w.reverse]
  else [])

/-- `BasicPasswordCracker.pattern_based_attack` (iteration1, lines
106-132): builds the variation list and hands it to `dictionary_attack`. -/
def pattern_based_attack (z : Zip) (w : List Char) (variations : Bool) : Option (List Char) × Nat :=
  dictionary_attack z (some (patterns w variations))

/-- The character class `[A-Za-z0-9+/]` of the regex in
`MultiLayerZipCracker.decode_base64_hints` (iteration2, line 122). -/
def isB64Char (c : Char) : Bool := c.isAlphanum || c == '+' || c == '/'

/-- `re.findall(r'[A-Za-z0-9+/]{20,}={0,2}', text)` (iteration2, lines
122-123), as a left-to-right scanner: at each position the greedy match
takes the maximal run of class characters; it succeeds when that run has
at least 20 characters, then takes up to two following `'='`; `findall`
resumes after the match, or one character further on failure (every
position inside a too-short run also fails, since the run from there is
still shorter than 20).  The fuel argument is the number of characters
left to scan; `findBase64Tokens` supplies the text length, which is
enough since every step consumes at least one character.
`b64Take` builds one greedy match at the current position (maximal class
run, then up to two `'='`) and returns it with the unscanned remainder. -/
def b64Take (s : List Char) : List Char × List Char :=
  let run := s.takeWhile isB64Char
  let pads := ((s.drop run.length).takeWhile (fun x => x == '=')).take 2
  (run ++ pads, (s.drop run.length).drop pads.length)

def b64Scan : Nat → List Char → List (List Char)
  | 0, _ => []
  | _, [] => []
  | fuel + 1, c :: rest =>
    if 20 ≤ ((c :: rest).takeWhile isB64Char).length then
      (b64Take (c :: rest)).1 :: b64Scan fuel (b64Take (c :: rest)).2
    else
      b64Scan fuel rest

/-- The matched tokens of `decode_base64_hints`'s regex over `text`. -/
def findBase64Tokens (text : List Char) : List (List Char) :=
  b64Scan text.length text

/-- Value of one base64 alphabet character. -/
def b64CharVal (c : Char) : Nat :=
  if 'A' ≤ c ∧ c ≤ 'Z' then c.toNat - 65
  else if 'a' ≤ c ∧ c ≤ 'z' then c.toNat - 71
  else if '0' ≤ c ∧ c ≤ '9' then c.toNat + 4
  else if c = '+' then 62
  else if c = '/' then 63
  else 0

/-- Base64 data characters to bytes, 4 characters per 3 bytes; a final
group of 2 or 3 characters yields 1 or 2 bytes, a dangling single
character is an error (as in `binascii.a2b_base64`). -/
def b64Bytes : List Char → Option (List Nat)
  | [] => some []
  | [_] => none
  | [c1, c2] => some [b64CharVal c1 * 4 + b64CharVal c2 / 16]
  | [c1, c2, c3] => some [b64CharVal c1 * 4 + b64CharVal c2 / 16,
                          b64CharVal c2 % 16 * 16 + b64CharVal c3 / 4]
  | c1 :: c2 :: c3 :: c4 :: rest =>
    (b64Bytes rest).map (fun bs =>
      (b64CharVal c1 * 4 + b64CharVal c2 / 16) ::
      (b64CharVal c2 % 16 * 16 + b64CharVal c3 / 4) ::
      (b64CharVal c3 % 4 * 64 + b64CharVal c4) :: bs)

/-- `base64.b64decode` on a matched token (data characters followed by
padding): the total length must be a multiple of 4 (otherwise
`binascii.Error`, i.e. `none`); the data characters are then decoded. -/
def pyB64Decode (tok : List Char) : Option (List Nat) :=
  if tok.length % 4 = 0 then b64Bytes (tok.takeWhile isB64Char) else none

/-- `bytes.decode('utf-8')` (strict): standard UTF-8 decoding, rejecting
truncated sequences, bad continuation bytes, overlong encodings,
surrogates and values beyond U+10FFFF. -/
def utf8Decode : List Nat → Option (List Char)
  | [] => some []
  | b :: rest =>
    if b < 0x80 then
      (utf8Decode rest).map (fun cs => Char.ofNat b :: cs)
    else if 0xC2 ≤ b ∧ b ≤ 0xDF then
      match rest with
      | b2 :: rest2 =>
        if 0x80 ≤ b2 ∧ b2 ≤ 0xBF then
          (utf8Decode rest2).map (fun cs =>
            Char.ofNat ((b - 0xC0) * 64 + (b2 - 0x80)) :: cs)
        else none
      | [] => none
    else if 0xE0 ≤ b ∧ b ≤ 0xEF then
      match rest with
      | b2 :: b3 :: rest2 =>
        if ((if b = 0xE0 then 0xA0 else 0x80) ≤ b2 ∧
            b2 ≤ (if b = 0xED then 0x9F else 0xBF)) ∧
            (0x80 ≤ b3 ∧ b3 ≤ 0xBF) then
          (utf8Decode rest2).map (fun cs =>
            Char.ofNat ((b - 0xE0) * 4096 + (b2 - 0x80) * 64 + (b3 - 0x80)) :: cs)
        else none
      | _ => none
    else if 0xF0 ≤ b ∧ b ≤ 0xF4 then
      match rest with
      | b2 :: b3 :: b4 :: rest2 =>
        if ((if b = 0xF0 then 0x90 else 0x80) ≤ b2 ∧
            b2 ≤ (if b = 0xF4 then 0x8F else 0xBF)) ∧
            (0x80 ≤ b3 ∧ b3 ≤ 0xBF) ∧ (0x80 ≤ b4 ∧ b4 ≤ 0xBF) then
          (utf8Decode rest2).map (fun cs =>
            Char.ofNat ((b - 0xF0) * 262144 + (b2 - 0x80) * 4096 +
              (b3 - 0x80) * 64 + (b4 - 0x80)) :: cs)
        else none
      | _ => none
    else none

/-- The body of the `try` in `decode_base64_hints`'s loop:
`base64.b64decode(match).decode('utf-8')`. -/
def decodeToken (tok : List Char) : Option (List Char) :=
  (pyB64Decode tok).bind utf8Decode

/-- The `for match in matches: try ... except: continue` loop of
`decode_base64_hints` (iteration2, lines 125-131): decoded strings are
emitted; any decode failure is swallowed and the loop continues. -/
def decodeLoop : List (List Char) → List (List Char)
  | [] => []
  | m :: rest =>
    match decodeToken m with
    | some d => d :: decodeLoop rest
    | none => decodeLoop rest

/-- `MultiLayerZipCracker.decode_base64_hints` (iteration2, lines
115-131): the decoded messages emitted for `text`. -/
def decode_base64_hints (text : List Char) : List (List Char) :=
  decodeLoop (findBase64Tokens text)

/-- Declarative shape of a regex match of `[A-Za-z0-9+/]{20,}={0,2}`: at
least 20 leading base64-alphabet characters, followed only by `'='`, at
most two of them. -/
def b64TokenShape (tok : List Char) : Prop :=
  20 ≤ (tok.takeWhile isB64Char).length ∧
  (tok.drop (tok.takeWhile isB64Char).length).all (fun c => c == '=') = true ∧
  (tok.drop (tok.takeWhile isB64Char).length).length ≤ 2

/-- Witness text for C6: one valid base64 token of length 44 (from the
iteration2 layer-1 content) and one 21-character alphanumeric token that
is not decodable base64 (21 data characters cannot be 1 more than a
multiple of 4). -/
def c6Text : List Char :=
  "x SGVsbG8gSGFja2VyISBZb3UncmUgZG9pbmcgZ3JlYXQh y AAAAAAAAAAAAAAAAAAAAA z".data

/-- The valid token inside `c6Text`. -/
def c6Token : List Char := "SGVsbG8gSGFja2VyISBZb3UncmUgZG9pbmcgZ3JlYXQh".data

/-- Python regex `\s` on the ASCII whitespace characters. -/
def isPyWs (c : Char) : Bool :=
  c == ' ' || c == '\t' || c == '\n' || c == '\r' || c == '\x0b' || c == '\x0c'

/-- Greedy match of `\d{1,3}\.\d{4}` at the head of `s`: 1-3 digits must
be immediately followed by `'.'` (a longer digit run cannot match, since
backtracking only puts a digit where the dot is required), then at least
4 digits of which exactly 4 are consumed.  Returns (matched text, rest). -/
def matchNumberCore (s : List Char) : Option (List Char × List Char) :=
  if 1 ≤ (s.takeWhile Char.isDigit).length ∧ (s.takeWhile Char.isDigit).length ≤ 3 then
    match s.drop (s.takeWhile Char.isDigit).length with
    | '.' :: t2 =>
      if 4 ≤ (t2.takeWhile Char.isDigit).length then
        some ((s.takeWhile Char.isDigit) ++ '.' :: (t2.takeWhile Char.isDigit).take 4,
          t2.drop 4)
      else none
    | _ => none
  else none

/-- Greedy match of `-?\d{1,3}\.\d{4}` at the head of `s`.  When the
optional minus is present but the numeric tail fails, backtracking to the
empty alternative also fails (a digit would have to stand where the `'-'`
is), so trying the sign first is complete. -/
def matchNumber (s : List Char) : Option (List Char × List Char) :=
  if s.head? = some '-' then (matchNumberCore s.tail).map (fun p => ('-' :: p.1, p.2))
  else matchNumberCore s

/-- Match of the whole pair pattern
`(-?\d{1,3}\.\d{4}),?\s*(-?\d{1,3}\.\d{4})` at the head of `s`
(iteration2 line 140): first number, optional comma, any whitespace,
second number.  Consuming the comma / maximal whitespace is never worse:
if the tail then fails, the skipped alternative places a comma or a space
where the second number must start, which also fails. -/
def matchPairAt (s : List Char) : Option ((List Char × List Char) × List Char) :=
  (matchNumber s).bind (fun p =>
    (matchNumber (((if p.2.head? = some ',' then p.2.tail else p.2).dropWhile isPyWs))).map
      (fun q => ((p.1, q.1), q.2)))

/-- `re.findall` of the coordinate pattern: left to right, try the pair
match at each position; on success emit the two groups and resume after
the match, on failure advance one character. -/
def coordScan : Nat → List Char → List (List Char × List Char)
  | 0, _ => []
  | _, [] => []
  | fuel + 1, c :: rest =>
    match matchPairAt (c :: rest) with
    | some pr => pr.1 :: coordScan fuel pr.2
    | none => coordScan fuel rest

/-- `MultiLayerZipCracker.extract_coordinates` (iteration2, lines
133-148): all (lat, lon) pairs matched by the coordinate regex, in order.
The source prints every matched pair; the range test on lines 146-148
only adds a location hint and never filters the emitted pairs. -/
def extract_coordinates (text : List Char) : List (List Char × List Char) :=
  coordScan text.length text

/-- Remove one leading `'-'` if present. -/
def stripSign (g : List Char) : List Char :=
  if g.head? = some '-' then g.tail else g

/-- Shape of an unsigned coordinate axis: an integer part of 1 to 3
digits, a dot, and a fractional part of exactly 4 digits. -/
def coordNumShapeCore (core : List Char) : Bool :=
  decide (1 ≤ (core.takeWhile Char.isDigit).length) &&
  decide ((core.takeWhile Char.isDigit).length ≤ 3) &&
    (match core.drop (core.takeWhile Char.isDigit).length with
     | '.' :: f => decide (f.length = 4) && f.all Char.isDigit
     | _ => false)

/-- Declarative shape of one matched coordinate axis: an optional minus
sign, an integer part of 1 to 3 digits, a dot, and a fractional part of
exactly 4 digits. -/
def coordNumShape (g : List Char) : Bool := coordNumShapeCore (stripSign g)

/-- C7 witness text: a pair far outside valid latitude/longitude ranges. -/
def c7Text : List Char := "999.1234, 500.5678".data

/-- Python `str.find` for a substring: index of the first occurrence of
`needle` in `hay`, or `none` (`-1` in Python) when absent. -/
def findSub (hay needle : List Char) : Option Nat :=
  if needle.isPrefixOf hay then some 0
  else
    match hay with
    | [] => none
    | _ :: t => (findSub t needle).map (· + 1)

/-- The hint-extraction step of
`MultiLayerZipCracker.process_extracted_content` (iteration2, lines
266-271): if `"HINT" in content.upper()`, slice
`content[hint_start : hint_start + 500]` at the first occurrence found by
`content.upper().find("HINT")` and emit that single section; otherwise
emit nothing. -/
def findHintSections (content : List Char) : List (List Char) :=
  match findSub (pyUpper content) "HINT".data with
  | some i => [(content.drop i).take 500]
  | none => []

/-- All positions at which `needle` occurs in `hay`. -/
def subPositions (needle hay : List Char) : List Nat :=
  (List.range (hay.length + 1)).filter (fun i => needle.isPrefixOf (hay.drop i))

/-- C8 counterexample text: two occurrences of the marker. -/
def c8Text : List Char := "HINT one HINT two".data

/-- `MultiLayerZipCracker.generate_simple_passwords` (iteration2, lines
172-184). -/
def generate_simple_passwords : List (List Char) :=
  ["start".data, "start123".data, "begin".data, "begin123".data, "layer1".data,
   "password".data, "123456".data, "welcome".data, "hello".data, "first".data] ++
  (["start".data, "begin".data, "first".data].flatMap (fun base =>
    ["1".data, "12".data, "123".data, "2024".data, "2023".data].map
      (fun num => base ++ num)))

/-- Python `year[-2:]`: the last two characters (all of them when the
string is shorter). -/
def pyLastTwo (y : List Char) : List Char := y.drop (y.length - 2)

/-- The scientist/year table of `generate_knowledge_passwords`
(iteration2, lines 189-193). -/
def scientists : List (List Char × List Char) :=
  [("albert".data, "1921".data), ("einstein".data, "1921".data),
   ("albert1921".data, "".data), ("newton".data, "1687".data),
   ("darwin".data, "1859".data), ("curie".data, "1903".data),
   ("tesla".data, "1856".data), ("galileo".data, "1564".data)]

/-- `MultiLayerZipCracker.generate_knowledge_passwords` (iteration2,
lines 186-203). -/
def generate_knowledge_passwords : List (List Char) :=
  scientists.flatMap (fun p =>
    [p.1 ++ p.2, pyCapitalize p.1 ++ p.2, p.1 ++ pyLastTwo p.2])

/-- `MultiLayerZipCracker.generate_complex_passwords` (iteration2, lines
205-219). -/
def generate_complex_passwords : List (List Char) :=
  ["paris".data, "london".data, "berlin".data, "madrid".data, "rome".data].flatMap
    (fun city =>
      ["au".data, "ag".data, "fe".data, "cu".data, "pb".data, "sn".data].flatMap
        (fun element =>
          ["49".data, "64".data, "36".data, "25".data, "16".data].flatMap
            (fun num =>
              ["!".data, "@".data, "#".data, "$".data, "%".data].map
                (fun symbol => city ++ element ++ num ++ symbol))))

/-- The layer-strategy dispatch of
`MultiLayerZipCracker.intelligent_crack_layer` (iteration2, lines
159-168): layer 1 → simple, layer 2 → knowledge, otherwise → complex.
The hint text is received (and only printed / scanned for base64 and
coordinates, lines 154-157); it does not appear in any branch. -/
def intelligentCandidates (layerNum : Nat) (hintText : List Char) : List (List Char) :=
  if layerNum = 1 then generate_simple_passwords
  else if layerNum = 2 then generate_knowledge_passwords
  else generate_complex_passwords

/-- `MultiLayerZipCracker.intelligent_crack_layer` (iteration2, lines
150-170): choose candidates by layer number, then `try_passwords`. -/
def intelligent_crack_layer (z : Zip) (layerNum : Nat) (hintText : List Char) :
    Option (List Char) × Nat × List (List Char) :=
  try_passwords z (intelligentCandidates layerNum hintText)

/-- `hint = self.extracted_hints[-1] if self.extracted_hints else ""`
(iteration2, line 300): the most recently accumulated hint, or empty. -/
def currentHint (extractedHints : List (List Char)) : List Char :=
  (extractedHints.getLast?).getD []

/-- Outcome of one `extractall` call as seen by the filesystem: success
writes the archive entries, failure raises after having written some
(possibly empty) set of partial files — e.g. an unencrypted first entry
extracted before an encrypted one rejects the password, or a fully
written garbage file whose CRC check fails at end of stream. -/
inductive ExtractOutcome where
  | ok (files : List (List Char))
  | fail (partialFiles : List (List Char))

/-- An archive together with the filesystem effect of each attempt. -/
structure FSZip where
  opens : Bool
  extract : List Char → ExtractOutcome

/-- State of `extract_dir`: whether it has been created, and the files it
contains. -/
structure DirState where
  created : Bool
  files : List (List Char)

/-- The body of `try_passwords` with its filesystem effects (iteration2,
lines 227-244): for each candidate, `extract_dir.mkdir(exist_ok=True)`,
then `extractall`; on success return at once, on failure (`RuntimeError`
/ `BadZipFile` caught) just `continue` — the source removes nothing
between attempts. -/
def tryPasswordsFS (z : FSZip) : List (List Char) → DirState → Option (List Char) × DirState
  | [], st => (none, st)
  | p :: rest, st =>
    match z.extract p with
    | .ok fs => (some p, ⟨true, st.files ++ fs⟩)
    | .fail pf => tryPasswordsFS z rest ⟨true, st.files ++ pf⟩

/-- `try_passwords` with filesystem effects, starting from a missing,
empty extraction directory. -/
def try_passwords_fs (z : FSZip) (candidates : List (List Char)) : Option (List Char) × DirState :=
  if z.opens then tryPasswordsFS z candidates ⟨false, []⟩ else (none, ⟨false, []⟩)

/-- An archive on which every candidate fails after a partial write. -/
def leakyArchive : FSZip := ⟨true, fun _ => .fail ["garbage.txt".data]⟩

theorem tryLoop_no_accept (accepts : List Char → Bool) (l : List (List Char))
    (h : ∀ p ∈ l, accepts p = false) :
    tryLoop accepts l = (none, l.length, l) := by
  induction l with
  | nil => rfl
  | cons p rest ih =>
    have hp := h p (List.mem_cons_self p rest)
    simp only [tryLoop, hp, Bool.false_eq_true, if_false]
    rw [ih (fun q hq => h q (List.mem_cons_of_mem p hq))]
    simp [List.length_cons]

theorem tryLoop_first_accept (accepts : List Char → Bool) (l : List (List Char))
    (j : Nat) (hj : j < l.length)
    (hbefore : ∀ p ∈ l.take j, accepts p = false)
    (hacc : accepts (l.get ⟨j, hj⟩) = true) :
    tryLoop accepts l = (some (l.get ⟨j, hj⟩), j + 1, l.take (j + 1)) := by
  induction l generalizing j with
  | nil => exact absurd hj (Nat.not_lt_zero j)
  | cons p rest ih =>
    cases j with
    | zero =>
      simp only [List.get] at hacc
      simp [tryLoop, hacc, List.take]
    | succ j' =>
      have hp : accepts p = false := hbefore p (by simp [List.take])
      simp only [tryLoop, hp, Bool.false_eq_true, if_false]
      have hj' : j' < rest.length := Nat.lt_of_succ_lt_succ hj
      rw [ih j' hj' (fun q hq => hbefore q (by simp [List.take]; exact Or.inr hq)) hacc]
      simp [List.take]

/-- C1: the unlock attempt loop (`MultiLayerZipCracker.try_passwords`)
tries candidates strictly in the supplied order, stops at the first
candidate whose extraction raises no authentication/integrity error,
returns it with an attempt count equal to its 1-based position, and tries
no candidate after the winner: when the candidate at index `j` is the
first accepted one, the result is that candidate, `j + 1` attempts, and
the tried list is exactly the first `j + 1` candidates. -/
theorem try_passwords_first_success (z : Zip) (candidates : List (List Char))
    (j : Nat) (hj : j < candidates.length)
    (hopen : z.opens = true)
    (hbefore : ∀ p ∈ candidates.take j, z.accepts p = false)
    (hacc : z.accepts (candidates.get ⟨j, hj⟩) = true) :
    try_passwords z candidates =
      (some (candidates.get ⟨j, hj⟩), j + 1, candidates.take (j + 1)) := by
  simp only [try_passwords, hopen, if_true]
  exact tryLoop_first_accept z.accepts candidates j hj hbefore hacc

/-- C1 witness: against an archive whose real password is `"correct"`,
the candidates `["wrong1", "wrong2", "correct", "wrong3"]` yield
found=`"correct"` after exactly 3 attempts, with `"wrong3"` never tried. -/
theorem try_passwords_first_success_witness :
    try_passwords demoArchive c1Candidates =
      (some "correct".data, 3, ["wrong1".data, "wrong2".data, "correct".data]) := by
  rw [try_passwords_first_success demoArchive c1Candidates 2 (by decide) rfl
    (by decide) (by decide)]
  rfl

/-- C4 (as amended): `try_passwords` with an empty candidate sequence
returns failure with no password found, 0 attempts and nothing tried, and
raises nothing — whereas `dictionary_attack` coalesces an empty wordlist
to the default common-passwords list (`wordlist or self.common_passwords`),
behaving exactly as if no wordlist had been supplied. -/
theorem empty_candidates_behavior (z : Zip) :
    try_passwords z [] = (none, 0, []) ∧
    dictionary_attack z (some []) = dictionary_attack z none := by
  refine ⟨?_, rfl⟩
  cases hz : z.opens <;> simp [try_passwords, tryLoop, hz]

/-- C4 counterexample: calling the iteration-1 unlock attempt
(`dictionary_attack`) with an explicitly empty candidate sequence on an
archive that accepts nothing makes 20 attempts (the default
common-passwords list is substituted for the empty one), not 0 — so the
claim that an empty strategy parameter yields an empty sequence treated
as immediate failure with attempts=0 is false for this entry point. -/
theorem dictionary_attack_empty_wordlist_counterexample :
    dictionary_attack noMatchArchive (some []) = (none, 20) ∧ (20 : Nat) ≠ 0 := by
  exact ⟨by decide, by decide⟩

/-- C5: a malformed/corrupt container (one that cannot be opened as an
archive) short-circuits the whole attempt loop in both iterations: the
result is failure with 0 attempts and an empty tried list — no candidate
is ever tried — distinct from the per-candidate wrong-password path. -/
theorem malformed_container_short_circuits (z : Zip) (candidates : List (List Char))
    (h : z.opens = false) :
    try_passwords z candidates = (none, 0, []) ∧
    dictionary_attack z (some candidates) = (none, 0) := by
  constructor
  · simp [try_passwords, h]
  · simp [dictionary_attack, h]

/-- C5 witness: a malformed container whose (never-reached) extraction
would accept every password still yields immediate failure with zero
candidates tried, on a non-empty candidate list. -/
theorem malformed_container_short_circuits_witness :
    try_passwords badArchive c1Candidates = (none, 0, []) ∧
    dictionary_attack badArchive (some c1Candidates) = (none, 0) :=
  malformed_container_short_circuits badArchive c1Candidates rfl

theorem mem_pyDigits_iff (c : Char) : c ∈ pyDigits ↔ c.isDigit = true := by
  constructor
  · intro h
    fin_cases h <;> decide
  · intro h
    simp only [Char.isDigit, Bool.and_eq_true, decide_eq_true_eq] at h
    obtain ⟨h1, h2⟩ := h
    have h1' : 48 ≤ c.toNat := h1
    have h2' : c.toNat ≤ 57 := h2
    have hc : c = Char.ofNat c.toNat := (Char.ofNat_toNat c).symm
    have hv : c.toNat = 48 ∨ c.toNat = 49 ∨ c.toNat = 50 ∨ c.toNat = 51 ∨ c.toNat = 52 ∨
        c.toNat = 53 ∨ c.toNat = 54 ∨ c.toNat = 55 ∨ c.toNat = 56 ∨ c.toNat = 57 := by omega
    rcases hv with h | h | h | h | h | h | h | h | h | h <;>
      (rw [hc, h]; decide)

theorem mem_digitProduct (n : Nat) (s : List Char) :
    s ∈ digitProduct n ↔ s.length = n ∧ ∀ c ∈ s, c ∈ pyDigits := by
  induction n generalizing s with
  | zero =>
    simp only [digitProduct, List.mem_singleton]
    constructor
    · rintro rfl; simp
    · rintro ⟨h, -⟩; exact List.length_eq_zero.mp h
  | succ n ih =>
    simp only [digitProduct, List.mem_flatMap, List.mem_map]
    constructor
    · rintro ⟨d, hd, t, ht, rfl⟩
      obtain ⟨hlen, hall⟩ := (ih t).mp ht
      refine ⟨by simp [hlen], ?_⟩
      intro c hc
      rcases List.mem_cons.mp hc with rfl | hc
      · exact hd
      · exact hall c hc
    · rintro ⟨hlen, hall⟩
      cases s with
      | nil => simp at hlen
      | cons c t =>
        refine ⟨c, hall c (List.mem_cons_self c t), t, (ih t).mpr ⟨?_, ?_⟩, rfl⟩
        · simpa using hlen
        · exact fun x hx => hall x (List.mem_cons_of_mem c hx)

theorem pairwise_flatMap {α β : Type} (R : β → β → Prop) (l : List α) (f : α → List β)
    (h1 : ∀ a ∈ l, List.Pairwise R (f a))
    (h2 : List.Pairwise (fun a b => ∀ x ∈ f a, ∀ y ∈ f b, R x y) l) :
    List.Pairwise R (l.flatMap f) := by
  induction l with
  | nil => simp
  | cons a t ih =>
    rw [List.flatMap_cons, List.pairwise_append]
    obtain ⟨hcross, htail⟩ := List.pairwise_cons.mp h2
    refine ⟨h1 a (List.mem_cons_self a t), ih (fun b hb => h1 b (List.mem_cons_of_mem a hb)) htail, ?_⟩
    intro x hx y hy
    obtain ⟨b, hb, hyb⟩ := List.mem_flatMap.mp hy
    exact hcross b hb x hx y hyb

theorem pairwise_lex_digitProduct (n : Nat) :
    List.Pairwise (List.Lex (· < ·)) (digitProduct n) := by
  induction n with
  | zero => simp [digitProduct]
  | succ n ih =>
    refine pairwise_flatMap _ _ _ ?_ ?_
    · intro d _
      exact List.Pairwise.map _ (fun a b h => List.Lex.cons h) ih
    · have hd : List.Pairwise (· < ·) pyDigits := by decide
      refine hd.imp_of_mem ?_
      intro d d' _ _ hdd' x hx y hy
      obtain ⟨s, -, rfl⟩ := List.mem_map.mp hx
      obtain ⟨t, -, rfl⟩ := List.mem_map.mp hy
      exact List.Lex.rel hdd'

/-- C2: for every `max_length ≥ 1`, the numeric brute-force enumeration
contains exactly the pure decimal-digit strings of length 1 up to and
including `max_length` (length 0 excluded), pairwise strictly in
ascending-length-then-lexicographic order (so each appears exactly once,
in that order), and for `max_length = 2` it is exactly `"0".."9"`
followed by `"00".."99"` — 110 candidates in that exact order. -/
theorem brute_force_numeric_enumeration (maxLength : Nat) (h : 1 ≤ maxLength) :
    (∀ s : List Char, s ∈ bruteForceNumericCandidates maxLength ↔
      (1 ≤ s.length ∧ s.length ≤ maxLength ∧ ∀ c ∈ s, c.isDigit = true)) ∧
    List.Pairwise lenLexOrder (bruteForceNumericCandidates maxLength) ∧
    bruteForceNumericCandidates 2 = c2Expected := by
  refine ⟨?_, ?_, by decide⟩
  · intro s
    unfold bruteForceNumericCandidates
    rw [List.mem_flatMap]
    constructor
    · rintro ⟨ℓ, hℓ, hs⟩
      rw [List.mem_range'_1] at hℓ
      obtain ⟨hlen, hall⟩ := (mem_digitProduct ℓ s).mp hs
      subst hlen
      exact ⟨hℓ.1, by omega, fun c hc => (mem_pyDigits_iff c).mp (hall c hc)⟩
    · rintro ⟨h1, h2, hall⟩
      refine ⟨s.length, ?_, (mem_digitProduct s.length s).mpr
        ⟨rfl, fun c hc => (mem_pyDigits_iff c).mpr (hall c hc)⟩⟩
      rw [List.mem_range'_1]
      omega
  · refine pairwise_flatMap _ _ _ ?_ ?_
    · intro ℓ _
      have hp := pairwise_lex_digitProduct ℓ
      refine hp.imp_of_mem ?_
      intro s t hs ht hlex
      have hslen := ((mem_digitProduct ℓ s).mp hs).1
      have htlen := ((mem_digitProduct ℓ t).mp ht).1
      exact Or.inr ⟨hslen.trans htlen.symm, hlex⟩
    · have hr : List.Pairwise (· < ·) (List.range' 1 maxLength) := List.pairwise_lt_range' ..
      refine hr.imp_of_mem ?_
      intro ℓ ℓ' _ _ hlt x hx y hy
      have hxlen := ((mem_digitProduct ℓ x).mp hx).1
      have hylen := ((mem_digitProduct ℓ' y).mp hy).1
      exact Or.inl (by omega)

/-- C2 witness: the theorem applied at `max_length = 2` yields the exact
110-candidate sequence `"0".."9", "00".."99"`. -/
theorem brute_force_numeric_enumeration_witness :
    1 ≤ 2 ∧ bruteForceNumericCandidates 2 = c2Expected :=
  ⟨by decide, (brute_force_numeric_enumeration 2 (by decide)).2.2⟩

/-- C3: for every base word `w`, the variation-enabled candidate set of
`pattern_based_attack` contains `w` verbatim, its all-uppercase,
all-lowercase and capitalized forms, `w+"1"`, `w+"123"`, the
current/adjacent year suffixes `w+"2023"` and `w+"2024"`, the
leading-digit variant `"1"+w`, the punctuation suffixes `w+"!"` and
`w+"@"`, the single-character leetspeak substitutions a→@, o→0, e→3,
i→1 (so in particular the substituted variant for each of a/o/e/i present
in `w`), and the reversed string. -/
theorem pattern_based_attack_variation_set (w : List Char) :
    w ∈ patterns w true ∧
    pyUpper w ∈ patterns w true ∧
    pyLower w ∈ patterns w true ∧
    pyCapitalize w ∈ patterns w true ∧
    w ++ "1".data ∈ patterns w true ∧
    w ++ "123".data ∈ patterns w true ∧
    w ++ "2023".data ∈ patterns w true ∧
    w ++ "2024".data ∈ patterns w true ∧
    "1".data ++ w ∈ patterns w true ∧
    w ++ "!".data ∈ patterns w true ∧
    w ++ "@".data ∈ patterns w true ∧
    pyReplace 'a' '@' w ∈ patterns w true ∧
    pyReplace 'o' '0' w ∈ patterns w true ∧
    pyReplace 'e' '3' w ∈ patterns w true ∧
    pyReplace 'i' '1' w ∈ patterns w true ∧
    w.reverse ∈ patterns w true := by
  simp [patterns]

theorem takeWhile_append_of_all {p : Char → Bool} {l₁ l₂ : List Char}
    (h : ∀ x ∈ l₁, p x = true) :
    (l₁ ++ l₂).takeWhile p = l₁ ++ l₂.takeWhile p := by
  induction l₁ with
  | nil => rfl
  | cons a t ih =>
    have ha := h a (List.mem_cons_self a t)
    simp only [List.cons_append, List.takeWhile_cons, ha, if_true]
    rw [ih (fun x hx => h x (List.mem_cons_of_mem a hx))]

theorem b64Take_shape (s : List Char) (h : 20 ≤ (s.takeWhile isB64Char).length) :
    b64TokenShape (b64Take s).1 := by
  unfold b64Take b64TokenShape
  simp only
  have hrunall : ∀ x ∈ s.takeWhile isB64Char, isB64Char x = true :=
    fun x hx => List.mem_takeWhile_imp hx
  have hpadsall : ∀ x ∈ (((s.drop (s.takeWhile isB64Char).length).takeWhile
      (fun y => y == '=')).take 2), (x == '=') = true :=
    fun x hx => List.mem_takeWhile_imp (p := fun y => y == '=') (List.mem_of_mem_take hx)
  have htw : ((s.takeWhile isB64Char) ++ (((s.drop (s.takeWhile isB64Char).length).takeWhile
      (fun y => y == '=')).take 2)).takeWhile isB64Char = s.takeWhile isB64Char := by
    rw [takeWhile_append_of_all hrunall]
    cases hp : (((s.drop (s.takeWhile isB64Char).length).takeWhile
        (fun y => y == '=')).take 2) with
    | nil => simp
    | cons x t =>
      have hx : (x == '=') = true := hpadsall x (hp ▸ List.mem_cons_self x t)
      have hx' : x = '=' := by simpa using hx
      subst hx'
      simp [List.takeWhile_cons, isB64Char]
  refine ⟨?_, ?_, ?_⟩
  · rw [htw]; exact h
  · rw [htw, List.drop_left]
    exact List.all_eq_true.mpr hpadsall
  · rw [htw, List.drop_left]
    exact List.length_take_le _ _

theorem b64Scan_shape (fuel : Nat) (s : List Char) :
    ∀ tok ∈ b64Scan fuel s, b64TokenShape tok := by
  induction fuel generalizing s with
  | zero => intro tok h; simp [b64Scan] at h
  | succ n ih =>
    intro tok h
    match s with
    | [] => simp [b64Scan] at h
    | c :: rest =>
      rw [b64Scan] at h
      split at h
      · rcases List.mem_cons.mp h with rfl | h'
        · exact b64Take_shape (c :: rest) (by assumption)
        · exact ih _ tok h'
      · exact ih rest tok h

theorem decodeLoop_eq_filterMap (l : List (List Char)) :
    decodeLoop l = l.filterMap decodeToken := by
  induction l with
  | nil => rfl
  | cons m rest ih =>
    rw [decodeLoop, List.filterMap_cons]
    cases hm : decodeToken m <;> simp [hm, ih]

/-- C6: every token matched by the encoded-segment extractor consists of
at least 20 base64-alphabet characters followed by at most two `'='`, and
`decode_base64_hints` emits exactly the successful decodings of those
tokens in order (`filterMap`): tokens whose decode fails contribute
nothing, and the function is total — no decode failure propagates. -/
theorem decode_base64_hints_spec (text : List Char) :
    (∀ tok ∈ findBase64Tokens text, b64TokenShape tok) ∧
    decode_base64_hints text = (findBase64Tokens text).filterMap decodeToken := by
  refine ⟨?_, ?_⟩
  · exact b64Scan_shape text.length text
  · unfold decode_base64_hints
    exact decodeLoop_eq_filterMap _

/-- C6 witness: on a text holding a valid 44-character base64 token and an
undecodable 21-character alphanumeric token, the theorem gives the shape
of the valid token, and evaluation shows exactly the one decoded message
`"Hello Hacker! You're doing great!"` is emitted — the bad token is
silently discarded. -/
theorem decode_base64_hints_spec_witness :
    b64TokenShape c6Token ∧
    decode_base64_hints c6Text = ["Hello Hacker! You're doing great!".data] :=
  ⟨(decode_base64_hints_spec c6Text).1 c6Token (by decide), by decide⟩

theorem matchNumberCore_shape (s g r : List Char) (h : matchNumberCore s = some (g, r)) :
    coordNumShapeCore g = true ∧ stripSign g = g := by
  unfold matchNumberCore at h
  split at h
  case isFalse => exact absurd h (by simp)
  case isTrue hlen =>
    split at h
    case h_2 => exact absurd h (by simp)
    case h_1 t2 heq =>
      split at h
      case isFalse => exact absurd h (by simp)
      case isTrue hfrac =>
        rw [Option.some.injEq, Prod.mk.injEq] at h
        obtain ⟨hg, -⟩ := h
        subst hg
        have hDall : ∀ x ∈ s.takeWhile Char.isDigit, Char.isDigit x = true :=
          fun x hx => List.mem_takeWhile_imp hx
        have htw : ((s.takeWhile Char.isDigit) ++
            '.' :: (t2.takeWhile Char.isDigit).take 4).takeWhile Char.isDigit =
            s.takeWhile Char.isDigit := by
          rw [takeWhile_append_of_all hDall, List.takeWhile_cons, if_neg (by decide),
            List.append_nil]
        have hdrop : ((s.takeWhile Char.isDigit) ++
            '.' :: (t2.takeWhile Char.isDigit).take 4).drop
              (s.takeWhile Char.isDigit).length =
            '.' :: (t2.takeWhile Char.isDigit).take 4 := List.drop_left _ _
        constructor
        · unfold coordNumShapeCore
          rw [htw, hdrop]
          simp only [Bool.and_eq_true, decide_eq_true_eq]
          refine ⟨⟨hlen.1, hlen.2⟩, ?_, ?_⟩
          · rw [List.length_take]
            omega
          · exact List.all_eq_true.mpr
              (fun x hx => List.mem_takeWhile_imp (List.mem_of_mem_take hx))
        · obtain ⟨d, ds, hD⟩ : ∃ d ds, s.takeWhile Char.isDigit = d :: ds := by
            cases hD : s.takeWhile Char.isDigit with
            | nil => rw [hD] at hlen; simp at hlen
            | cons d ds => exact ⟨d, ds, rfl⟩
          have hd : Char.isDigit d = true := hDall d (hD ▸ List.mem_cons_self d ds)
          have hdne : d ≠ '-' := by
            intro hcontra; subst hcontra; exact absurd hd (by decide)
          rw [hD, List.cons_append]
          unfold stripSign
          rw [if_neg]
          simp only [List.head?_cons, Option.some.injEq]
          exact hdne

theorem matchNumber_shape (s g r : List Char) (h : matchNumber s = some (g, r)) :
    coordNumShape g = true := by
  unfold matchNumber at h
  split at h
  · rw [Option.map_eq_some'] at h
    obtain ⟨p, hp, hpr⟩ := h
    obtain ⟨p1, p2⟩ := p
    rw [Prod.mk.injEq] at hpr
    obtain ⟨hg, -⟩ := hpr
    subst hg
    have hc := matchNumberCore_shape s.tail p1 p2 hp
    unfold coordNumShape
    have hstrip : stripSign ('-' :: p1) = p1 := rfl
    rw [hstrip]
    exact hc.1
  · have hc := matchNumberCore_shape s g r h
    unfold coordNumShape
    rw [hc.2]
    exact hc.1

theorem matchPairAt_shape (s g1 g2 r : List Char)
    (h : matchPairAt s = some ((g1, g2), r)) :
    coordNumShape g1 = true ∧ coordNumShape g2 = true := by
  unfold matchPairAt at h
  rw [Option.bind_eq_some] at h
  obtain ⟨p, hp, h2⟩ := h
  rw [Option.map_eq_some'] at h2
  obtain ⟨q, hq, hqr⟩ := h2
  obtain ⟨p1, p2⟩ := p
  obtain ⟨q1, q2⟩ := q
  simp only [Prod.mk.injEq] at hqr
  obtain ⟨⟨h1, h2'⟩, -⟩ := hqr
  subst h1; subst h2'
  exact ⟨matchNumber_shape _ _ _ hp, matchNumber_shape _ _ _ hq⟩

theorem coordScan_shape (fuel : Nat) (s : List Char) :
    ∀ pr ∈ coordScan fuel s, coordNumShape pr.1 = true ∧ coordNumShape pr.2 = true := by
  induction fuel generalizing s with
  | zero => intro pr h; simp [coordScan] at h
  | succ n ih =>
    intro pr h
    match s with
    | [] => simp [coordScan] at h
    | c :: rest =>
      rw [coordScan] at h
      split at h
      case h_1 pr0 heq =>
        rcases List.mem_cons.mp h with rfl | h'
        · obtain ⟨⟨a, b⟩, r0⟩ := pr0
          exact matchPairAt_shape (c :: rest) a b r0 heq
        · exact ih pr0.2 pr h'
      case h_2 => exact ih rest pr h

/-- C7: every (lat, lon) pair emitted by the coordinate extractor has, on
each axis, the matched shape optional-minus, 1-3 integer digits, a dot
and exactly 4 fractional digits; and the extractor performs no range
filtering — on `"999.1234, 500.5678"` (|lat| > 90 and |lon| > 180) the
out-of-range pair is returned as the full result. -/
theorem extract_coordinates_spec :
    (∀ text : List Char, ∀ pr ∈ extract_coordinates text,
        coordNumShape pr.1 = true ∧ coordNumShape pr.2 = true) ∧
    extract_coordinates c7Text = [("999.1234".data, "500.5678".data)] := by
  constructor
  · intro text pr h
    exact coordScan_shape text.length text pr h
  · decide

/-- C7 witness: the out-of-range pair of `c7Text` is a member of the
result, and the theorem yields the exact-4-fractional-digit shape of each
of its axes. -/
theorem extract_coordinates_spec_witness :
    ("999.1234".data, "500.5678".data) ∈ extract_coordinates c7Text ∧
    (coordNumShape "999.1234".data = true ∧ coordNumShape "500.5678".data = true) :=
  ⟨by decide, extract_coordinates_spec.1 c7Text ("999.1234".data, "500.5678".data) (by decide)⟩

theorem findSub_some (hay needle : List Char) :
    ∀ i, findSub hay needle = some i →
      needle.isPrefixOf (hay.drop i) = true ∧
      ∀ j, j < i → needle.isPrefixOf (hay.drop j) = false := by
  induction hay with
  | nil =>
    intro i h
    unfold findSub at h
    split at h
    case isTrue hc =>
      rw [Option.some.injEq] at h; subst h
      exact ⟨hc, fun j hj => absurd hj (Nat.not_lt_zero j)⟩
    case isFalse hc =>
      exact absurd h (by simp)
  | cons c t ih =>
    intro i h
    unfold findSub at h
    split at h
    case isTrue hc =>
      rw [Option.some.injEq] at h; subst h
      exact ⟨hc, fun j hj => absurd hj (Nat.not_lt_zero j)⟩
    case isFalse hc =>
      replace h : (findSub t needle).map (· + 1) = some i := h
      rw [Option.map_eq_some'] at h
      obtain ⟨i', hi', rfl⟩ := h
      obtain ⟨h1, h2⟩ := ih i' hi'
      refine ⟨by simpa using h1, ?_⟩
      intro j hj
      cases j with
      | zero =>
        simp only [Bool.not_eq_true] at hc
        rw [List.drop_zero]
        exact hc
      | succ j' => simpa using h2 j' (Nat.lt_of_succ_lt_succ hj)

/-- C8 (as amended): hint-section extraction emits at most one section
per text: when the case-insensitive marker `"HINT"` occurs, exactly the
single substring of at most 500 characters starting at the *first*
occurrence is emitted (every earlier position is not an occurrence); when
the marker does not occur, nothing is emitted.  Texts with several
occurrences still yield one section, not one per occurrence. -/
theorem find_hint_sections_first_only (content : List Char) :
    (∀ sec ∈ findHintSections content, sec.length ≤ 500) ∧
    (findHintSections content).length ≤ 1 ∧
    (∀ i, findSub (pyUpper content) "HINT".data = some i →
      findHintSections content = [(content.drop i).take 500] ∧
      "HINT".data.isPrefixOf ((pyUpper content).drop i) = true ∧
      ∀ j, j < i → "HINT".data.isPrefixOf ((pyUpper content).drop j) = false) ∧
    (findSub (pyUpper content) "HINT".data = none → findHintSections content = []) := by
  refine ⟨?_, ?_, ?_, ?_⟩
  · intro sec hsec
    unfold findHintSections at hsec
    split at hsec
    · rcases List.mem_singleton.mp hsec with rfl
      exact List.length_take_le _ _
    · simp at hsec
  · unfold findHintSections
    split <;> simp
  · intro i hi
    have hs := findSub_some (pyUpper content) "HINT".data i hi
    refine ⟨?_, hs.1, hs.2⟩
    unfold findHintSections
    rw [hi]
  · intro hn
    unfold findHintSections
    rw [hn]

/-- C8 counterexample: the text `"HINT one HINT two"` contains two
case-insensitive occurrences of the marker (positions 0 and 9), yet
exactly one hint section is emitted — refuting "one hint section per
occurrence" for texts with two or more occurrences. -/
theorem find_hint_sections_counterexample :
    (subPositions "HINT".data (pyUpper c8Text)).length = 2 ∧
    (findHintSections c8Text).length = 1 :=
  ⟨by decide, by decide⟩

/-- C8 witness: on the two-occurrence text, the theorem applied at the
first occurrence (index 0) yields the single emitted section. -/
theorem find_hint_sections_first_only_witness :
    findHintSections c8Text = [(c8Text.drop 0).take 500] :=
  (((find_hint_sections_first_only c8Text).2.2.1) 0 (by decide)).1

/-- C9 (as amended): the candidate strategy of a layer depends only on
the layer number — layer 1 simple/static, layer 2 knowledge-derived, any
other layer complex/combinatorial — and the accumulated hints never
influence the candidate sequence: the same candidates are produced for
any two hint states (the hint text is only printed and scanned for
base64/coordinate display). -/
theorem intelligent_crack_layer_strategy (layerNum : Nat) (hints : List (List Char))
    (hintText : List Char) :
    intelligentCandidates layerNum (currentHint hints) =
      intelligentCandidates layerNum hintText ∧
    (layerNum = 1 → intelligentCandidates layerNum hintText = generate_simple_passwords) ∧
    (layerNum = 2 → intelligentCandidates layerNum hintText = generate_knowledge_passwords) ∧
    (layerNum ≠ 1 ∧ layerNum ≠ 2 →
      intelligentCandidates layerNum hintText = generate_complex_passwords) := by
  refine ⟨rfl, ?_, ?_, ?_⟩
  · rintro rfl; rfl
  · rintro rfl; rfl
  · rintro ⟨h1, h2⟩
    unfold intelligentCandidates
    rw [if_neg h1, if_neg h2]

/-- C9 counterexample: with a non-empty accumulated hint list, the most
recent hint is non-empty, yet layer 2 produces exactly the same candidate
sequence as with no hint at all — the candidate sequence does not depend
on the hint text, refuting "the candidate sequence produced for that
layer depends on the hint text" whenever a hint exists. -/
theorem intelligent_crack_layer_hint_counterexample :
    currentHint ["the password is parisau49!".data] ≠ [] ∧
    intelligentCandidates 2 (currentHint ["the password is parisau49!".data]) =
      intelligentCandidates 2 (currentHint []) :=
  ⟨by decide, rfl⟩

/-- C9 witness: the theorem applied at layer 3 with a present hint yields
the default complex strategy. -/
theorem intelligent_crack_layer_strategy_witness :
    intelligentCandidates 3 "some hint".data = generate_complex_passwords :=
  (intelligent_crack_layer_strategy 3 ["some hint".data] "some hint".data).2.2.2
    ⟨by decide, by decide⟩

theorem tryPasswordsFS_all_fail (z : FSZip) (l : List (List Char)) (st : DirState)
    (hfail : ∀ p ∈ l, ∃ pf, z.extract p = .fail pf) :
    tryPasswordsFS z l st =
      (none, ⟨if l.isEmpty then st.created else true,
        st.files ++ l.flatMap
          (fun p => match z.extract p with | .ok fs => fs | .fail pf => pf)⟩) := by
  induction l generalizing st with
  | nil =>
    simp only [tryPasswordsFS, List.isEmpty_nil, if_true, List.flatMap_nil, List.append_nil]
  | cons p rest ih =>
    obtain ⟨pf, hpf⟩ := hfail p (List.mem_cons_self p rest)
    simp only [tryPasswordsFS, hpf]
    rw [ih ⟨true, st.files ++ pf⟩ (fun q hq => hfail q (List.mem_cons_of_mem p hq))]
    simp only [List.isEmpty_cons, List.flatMap_cons, hpf]
    rw [List.append_assoc]
    congr 1
    split <;> rfl

/-- C10 (as amended): the attempt loop performs no cleanup at all: when
every candidate fails, the final result is failure and `extract_dir`
contains exactly the concatenation of the partial writes of all failed
attempts (nothing is removed before the next candidate or before
reporting overall failure), and the directory has been created as soon as
at least one candidate was tried. -/
theorem try_passwords_fs_no_cleanup (z : FSZip) (candidates : List (List Char))
    (hopen : z.opens = true)
    (hfail : ∀ p ∈ candidates, ∃ pf, z.extract p = .fail pf) :
    (try_passwords_fs z candidates).1 = none ∧
    (try_passwords_fs z candidates).2.files =
      candidates.flatMap
        (fun p => match z.extract p with | .ok fs => fs | .fail pf => pf) ∧
    (try_passwords_fs z candidates).2.created =
      (if candidates.isEmpty then false else true) := by
  unfold try_passwords_fs
  rw [hopen, if_pos rfl, tryPasswordsFS_all_fail z candidates ⟨false, []⟩ hfail]
  exact ⟨rfl, by simp, rfl⟩

/-- C10 counterexample: against an archive on which the single candidate
fails after writing a partial file, the loop reports overall failure
while `extract_dir` still holds the stray partial file — refuting "on
failure, `extract_dir` contains no partial output". -/
theorem try_passwords_fs_counterexample :
    (try_passwords_fs leakyArchive ["wrongpw".data]).1 = none ∧
    (try_passwords_fs leakyArchive ["wrongpw".data]).2.files = ["garbage.txt".data] ∧
    ["garbage.txt".data] ≠ ([] : List (List Char)) :=
  ⟨rfl, rfl, by decide⟩

/-- C10 witness: the amended theorem applied to two failing candidates —
both partial writes accumulate and remain after overall failure. -/
theorem try_passwords_fs_no_cleanup_witness :
    (try_passwords_fs leakyArchive ["a".data, "b".data]).1 = none ∧
    (try_passwords_fs leakyArchive ["a".data, "b".data]).2.files =
      (["a".data, "b".data] : List (List Char)).flatMap
        (fun p => match leakyArchive.extract p with | .ok fs => fs | .fail pf => pf) ∧
    (try_passwords_fs leakyArchive ["a".data, "b".data]).2.created =
      (if (["a".data, "b".data] : List (List Char)).isEmpty then false else true) :=
  try_passwords_fs_no_cleanup leakyArchive ["a".data, "b".data] rfl
    (fun p _ => ⟨["garbage.txt".data], rfl⟩)

end Hackersmind
